import Mathlib

/-!
Verification of the ImageSplitter repository (Go): a web service that splits a
remote image into bounded-height chunks and optionally archives them.

The definitions below are a shallow embedding of the processing module
(`imageprocessor`, file `part_001`) and of the HTTP handler's input validation
(`main.go`).  Go `int` values are modelled as `Int`; Go's integer division
truncates toward zero and panics on a zero divisor, which is modelled by
`goQuot` / `goDivOpt` (`none` = runtime panic).  File-system and process
effects are modelled by explicit environment records.
-/

instance {ε α : Type} [DecidableEq ε] [DecidableEq α] : DecidableEq (Except ε α) := fun x y =>
  match x, y with
  | Except.ok a, Except.ok b =>
    if h : a = b then Decidable.isTrue (h ▸ rfl)
    else Decidable.isFalse (fun hc => h (Except.ok.inj hc))
  | Except.error a, Except.error b =>
    if h : a = b then Decidable.isTrue (h ▸ rfl)
    else Decidable.isFalse (fun hc => h (Except.error.inj hc))
  | Except.ok _, Except.error _ => Decidable.isFalse (fun hc => Except.noConfusion hc)
  | Except.error _, Except.ok _ => Decidable.isFalse (fun hc => Except.noConfusion hc)

/-- Go integer division: truncation toward zero (`a / b` for `b ≠ 0`). -/
def goQuot (a b : Int) : Int :=
  if (a < 0) = (b < 0) then ((a.natAbs / b.natAbs : Nat) : Int)
  else -((a.natAbs / b.natAbs : Nat) : Int)

/-- Go integer division including the zero-divisor runtime panic (`none`). -/
def goDivOpt (a b : Int) : Option Int :=
  if b = 0 then none else some (goQuot a b)

/-- One planned chunk: its Y-range in the source, the X-offset the renderer
reads from, the produced width, and the output file's base name
(joined under the run's output directory by the code). -/
structure ChunkSpec where
  startY : Int
  endY : Int
  xOff : Int
  outWidth : Int
  fileName : String
deriving DecidableEq, Repr

/-- `fileNumberStr` of both processing paths (part_001 lines 221-226 / 372-377):
`fmt.Sprintf("%d", n)`, overwritten by `fmt.Sprintf("0%d", n)` when `n < 10`. -/
def fileNumberStrOf (fileNumber : Int) : String :=
  let s := toString fileNumber
  if fileNumber < 10 then "0" ++ s else s

/-- Output base name `fmt.Sprintf("%s_%s.jpg", imagesPrefix, fileNumberStr)`
(part_001 lines 229 / 378). -/
def chunkFileName (pfx : String) (fileNumber : Int) : String :=
  pfx ++ "_" ++ fileNumberStrOf fileNumber ++ ".jpg"

/-- Loop body of `processImageWithGo` (part_001 lines 349-378) for 0-based `i`:
`startY := i*maxHeight; endY := startY+maxHeight; if endY > totalHeight {endY = totalHeight}`;
the sub-image has width `width` and the renderer's source X-offset is 0
(the centering expression is commented out in the source). -/
def goChunk (totalHeight maxHeight width : Int) (pfx : String) (i : Nat) : ChunkSpec :=
  let startY := (i : Int) * maxHeight
  let endY := startY + maxHeight
  let endY := if endY > totalHeight then totalHeight else endY
  { startY := startY, endY := endY, xOff := 0, outWidth := width,
    fileName := chunkFileName pfx ((i : Int) + 1) }

/-- Loop body of `processImageWithCLI` (part_001 lines 214-256) for 0-based `i`:
same Y-range; the `vips crop` call receives x-offset `0` in both branches
(`xOffset := 0` — the centering expression is commented out — in the crop
branch, the literal `"0"` otherwise) and width `requestedWidth` when cropping,
`width` otherwise. -/
def cliChunk (totalHeight maxHeight : Int) (cropWidth : Bool) (width requestedWidth : Int)
    (pfx : String) (i : Nat) : ChunkSpec :=
  let startY := (i : Int) * maxHeight
  let endY := startY + maxHeight
  let endY := if endY > totalHeight then totalHeight else endY
  { startY := startY, endY := endY, xOff := 0,
    outWidth := if cropWidth then requestedWidth else width,
    fileName := chunkFileName pfx ((i : Int) + 1) }

/-- Renderer source X computation of `processImageWithGo` (part_001 lines
358-367): `srcX := x`; when cropping, `offset := 0` (the centering expression
`(originalWidth - width) / 2` is commented out) and `srcX = x + offset`. -/
def goSrcX (cropWidth : Bool) (x : Int) : Int :=
  if cropWidth then
    let offset : Int := 0
    x + offset
  else x

/-- Planning portion of `processImageWithGo` (part_001 lines 331-378): width
crop decision, ceiling-division split count, `maxImages` truncation, and the
per-chunk geometry and file names produced by the loop.  `none` models the
divide-by-zero panic when `maxHeight = 0`. -/
def processImageWithGo_plan (originalWidth totalHeight maxHeight requestedWidth maxImages : Int)
    (pfx : String) : Option (List ChunkSpec) :=
  let width := originalWidth
  let cropWidth : Bool := decide (requestedWidth > 0 ∧ originalWidth > requestedWidth)
  let width := if cropWidth then requestedWidth else width
  match goDivOpt (totalHeight + maxHeight - 1) maxHeight with
  | none => none
  | some sc =>
    let splitCount := if maxImages > 0 ∧ sc > maxImages then maxImages else sc
    some ((List.range splitCount.toNat).map (goChunk totalHeight maxHeight width pfx))

/-- Planning portion of `processImageWithCLI` (part_001 lines 196-256): same
width-crop decision, split count and truncation as the Go path; the loop issues
one `vips crop` per chunk (see `cliChunk`). -/
def processImageWithCLI_plan (originalWidth totalHeight maxHeight requestedWidth maxImages : Int)
    (pfx : String) : Option (List ChunkSpec) :=
  let width := originalWidth
  let cropWidth : Bool := decide (requestedWidth > 0 ∧ originalWidth > requestedWidth)
  let width := if cropWidth then requestedWidth else width
  match goDivOpt (totalHeight + maxHeight - 1) maxHeight with
  | none => none
  | some sc =>
    let splitCount := if maxImages > 0 ∧ sc > maxImages then maxImages else sc
    some ((List.range splitCount.toNat).map
      (cliChunk totalHeight maxHeight cropWidth width requestedWidth pfx))

/-- Abstract outcome of one HTTP GET plus the local file operations used by
`downloadImage` (part_001 lines 117-146).  `status`/`body` describe the
response when the transport succeeds. -/
structure HttpEnv where
  newRequestFails : Bool
  transportFails : Bool
  status : Nat
  body : String
  createFileFails : Bool
  copyFails : Bool
deriving DecidableEq, Repr

/-- `downloadImage` (part_001 lines 117-146): streaming download with Go's
HTTP client.  It errors on request creation, transport, file creation and
copy failures, and otherwise copies `resp.Body` to the output file; the
response status code is never examined.  `ok` carries the bytes written. -/
def downloadImage (env : HttpEnv) : Except String String :=
  if env.newRequestFails then Except.error "failed to create request"
  else if env.transportFails then Except.error "failed to download image"
  else if env.createFileFails then Except.error "failed to create output file"
  else if env.copyFails then Except.error "failed to save image"
  else Except.ok env.body

/-- Abstract outcome of the `curl` invocation and the `os.Stat` check used by
`downloadImageWithCurl` (part_001 lines 87-115). -/
structure CurlEnv where
  exitCode : Nat
  combinedOutput : String
  statFails : Bool
  fileSize : Nat
deriving DecidableEq, Repr

/-- `downloadImageWithCurl` (part_001 lines 87-115): runs
`curl --silent --show-error --fail --output <path> <url>`, then verifies via
`os.Stat` that the output file exists and is non-empty. -/
def downloadImageWithCurl (env : CurlEnv) : Except String Unit :=
  if env.exitCode ≠ 0 then
    Except.error ("failed to download image with curl - " ++ env.combinedOutput)
  else if env.statFails then Except.error "failed to verify downloaded file"
  else if env.fileSize = 0 then Except.error "downloaded file is empty"
  else Except.ok ()

/-- The JSON request body decoded by `handleSplitImage` (main.go lines
794-800). -/
structure ImageRequest where
  url : String
  imagesPfx : String
  width : Int
  maxImages : Int
  createZip : Bool
deriving DecidableEq, Repr

/-- `containsOnlyAllowedChars` (main.go lines 975-982): every rune of `s`
must occur in `allowed`. -/
def containsOnlyAllowedChars (s allowed : String) : Bool :=
  s.data.all (fun char => allowed.data.contains char)

/-- The allowed-character set passed for `images_prefix` (main.go line 944). -/
def allowedPfxChars : String :=
  "abcdefghijklmnopqrstuvwxyzABCDEFGHIJKLMNOPQRSTUVWXYZ0123456789_"

/-- Input validation of `handleSplitImage` (main.go lines 925-950), in source
order: empty `url`, negative `max_images`, then the character check on
`images_prefix`.  `some msg` is the error of the 400 response on which the
handler returns early; `none` means validation passed. -/
def handleSplitImage_validate (req : ImageRequest) : Option String :=
  if req.url = "" then some "URL is required"
  else if req.maxImages < 0 then some "max_images must be a positive integer"
  else if containsOnlyAllowedChars req.imagesPfx allowedPfxChars = false then
    some "images_prefix contains invalid characters"
  else none

/-- `handleSplitImage` reaches the pipeline (constructs the `Processor` and
calls `ProcessImage`, which creates the working directory and fetches — main.go
lines 952-961) exactly when no validation error fired. -/
def handleSplitImage_startsPipeline (req : ImageRequest) : Bool :=
  (handleSplitImage_validate req).isNone

/-- Splitting a character list around every occurrence of `sep`; models Go's
`strings.Split` with a one-character separator (all separators used by the
prober are single characters). -/
def splitOnChar (sep : Char) : List Char → List (List Char)
  | [] => [[]]
  | c :: cs =>
    let rest := splitOnChar sep cs
    if c = sep then [] :: rest
    else
      match rest with
      | r :: rs => (c :: r) :: rs
      | [] => [[c]]

/-- ASCII whitespace test used to model `strings.TrimSpace` (the tool output
parsed by the prober is ASCII). -/
def isGoSpace (c : Char) : Bool :=
  c = ' ' ∨ c = '\t' ∨ c = '\n' ∨ c = '\r'

/-- Drop leading whitespace. -/
def trimLeftSpace : List Char → List Char
  | [] => []
  | c :: cs => if isGoSpace c then trimLeftSpace cs else c :: cs

/-- `strings.TrimSpace`: drop leading and trailing whitespace. -/
def trimSpace (s : List Char) : List Char :=
  (trimLeftSpace (trimLeftSpace s.reverse).reverse)

/-- Digit run to number, most significant first. -/
def digitsToNat (l : List Char) : Nat :=
  l.foldl (fun acc c => acc * 10 + (c.toNat - '0'.toNat)) 0

/-- `strconv.Atoi`: optional single leading sign, then one or more ASCII
digits; anything else is an error (`none`).  The 64-bit range error is not
modelled. -/
def atoiGo (s : List Char) : Option Int :=
  match s with
  | [] => none
  | '-' :: rest =>
    if rest ≠ [] ∧ rest.all (fun c => c.isDigit) then some (-(digitsToNat rest : Int))
    else none
  | '+' :: rest =>
    if rest ≠ [] ∧ rest.all (fun c => c.isDigit) then some ((digitsToNat rest : Int))
    else none
  | _ =>
    if s.all (fun c => c.isDigit) then some ((digitsToNat s : Int)) else none

/-- Final stage of the vipsheader dimension parsing (part_001 lines 186-194):
`strconv.Atoi` on the two `"x"`-separated parts, failing on either
non-numeric token. -/
def parseDimNumbers (d0 d1 : List Char) : Except String (Int × Int) :=
  match atoiGo d0 with
  | none => Except.error "failed to parse image width"
  | some w =>
    match atoiGo d1 with
    | none => Except.error "failed to parse image height"
    | some h => Except.ok (w, h)

/-- `"x"`-split stage of the vipsheader dimension parsing (part_001 lines
180-184): the first space-separated token must split on `"x"` into exactly
two parts. -/
def parseDimToken (tok0 : List Char) : Except String (Int × Int) :=
  match splitOnChar 'x' tok0 with
  | [d0, d1] => parseDimNumbers d0 d1
  | dims =>
    Except.error ("unexpected dimension format from vipsheader: " ++ dims.length.repr)

/-- Space-split stage of the vipsheader dimension parsing (part_001 lines
171-178): trim the field after the colon and take its first space-separated
token (the `len < 1` branch of the source is unreachable: a split is never
empty). -/
def parseDimensionPart (part1 : List Char) : Except String (Int × Int) :=
  match splitOnChar ' ' (trimSpace part1) with
  | tok0 :: _ => parseDimToken tok0
  | [] => Except.error "unexpected dimension format from vipsheader"

/-- Dimension parsing of `processImageWithCLI` (part_001 lines 161-194) on the
`vipsheader` output: trim, split on `":"` requiring at least two fields, then
parse the second field (`parseDimensionPart` → `parseDimToken` →
`parseDimNumbers`).  Errors carry the messages of the corresponding
`fmt.Errorf` calls. -/
def parseVipsheaderDims (output : List Char) : Except String (Int × Int) :=
  match splitOnChar ':' (trimSpace output) with
  | _ :: part1 :: _ => parseDimensionPart part1
  | _ => Except.error "unexpected output format from vipsheader"

/-- Result assembled by a run of `ProcessImage`: the response fields plus the
set of files the run wrote into its working directory. -/
structure RunResult where
  zipUrl : String
  images : List String
  files : List String
  archive : Option String
deriving DecidableEq, Repr

/-- Modelled from the spec: the `createZip`-aware `ProcessImage`.  The caller
`handleSplitImage` (main.go line 961) passes `req.CreateZip` as a fifth
argument, but the image-processor module present in the corpus predates that
parameter (its `ProcessImage`, part_001 line 32, takes four and archives
unconditionally), so the archive step follows spec §4.6 steps 5-6 and §6:
render the planned chunks, then "if archiving requested, archive all rendered
chunks; else omit the archive from the result", with `zipUrl` the archive
path and "empty if not created".  Chunk planning and naming reuse the
source-derived `processImageWithGo_plan`. -/
def processImage_model (originalWidth totalHeight maxHeight requestedWidth maxImages : Int)
    (pfx : String) (createZip : Bool) : Option RunResult :=
  match processImageWithGo_plan originalWidth totalHeight maxHeight requestedWidth maxImages pfx with
  | none => none
  | some chunks =>
    let chunkFiles := chunks.map (fun c => c.fileName)
    let zipName := pfx ++ ".zip"
    let archive := if createZip then some zipName else none
    some { zipUrl := if createZip then zipName else ""
           images := chunkFiles
           files := chunkFiles ++ (match archive with | some z => [z] | none => [])
           archive := archive }

def c8ChunkList : List ChunkSpec :=
  [⟨0, 100, 0, 50, "p_01.jpg"⟩, ⟨100, 200, 0, 50, "p_02.jpg"⟩, ⟨200, 300, 0, 50, "p_03.jpg"⟩,
   ⟨300, 400, 0, 50, "p_04.jpg"⟩, ⟨400, 500, 0, 50, "p_05.jpg"⟩, ⟨500, 600, 0, 50, "p_06.jpg"⟩,
   ⟨600, 700, 0, 50, "p_07.jpg"⟩, ⟨700, 800, 0, 50, "p_08.jpg"⟩, ⟨800, 900, 0, 50, "p_09.jpg"⟩,
   ⟨900, 1000, 0, 50, "p_10.jpg"⟩]

lemma nat_div_bounds (y M : Nat) (hM : 0 < M) : y / M * M ≤ y ∧ y < (y / M + 1) * M := by
  have hdm := Nat.div_add_mod y M
  have hml := Nat.mod_lt y hM
  have h1 : (y / M + 1) * M = M * (y / M) + M := by ring
  have h2 : y / M * M = M * (y / M) := by ring
  rw [h1, h2]
  generalize M * (y / M) = P at hdm ⊢
  omega

lemma nat_lt_ceil_mul (H M i : Nat) (hM : 0 < M) (h2 : i + 1 < (H + M - 1) / M) :
    (i + 1) * M < H := by
  have hle : i + 2 ≤ (H + M - 1) / M := h2
  rw [Nat.le_div_iff_mul_le hM] at hle
  have h3 : (i + 2) * M = (i + 1) * M + M := by ring
  rw [h3] at hle
  generalize (i + 1) * M = P at hle ⊢
  omega

lemma nat_div_lt_ceil (H M y : Nat) (hM : 0 < M) (hy : y < H) :
    y / M < (H + M - 1) / M := by
  rw [Nat.lt_iff_add_one_le, Nat.le_div_iff_mul_le hM]
  have h3 : (y / M + 1) * M = y / M * M + M := by ring
  rw [h3]
  have h1 := (nat_div_bounds y M hM).1
  generalize y / M * M = P at h1 ⊢
  omega

lemma processImageWithGo_plan_eval (ow h mh rw maxI : Int) (pfx : String) (hmh : mh ≠ 0) :
    processImageWithGo_plan ow h mh rw maxI pfx =
      some ((List.range ((if maxI > 0 ∧ goQuot (h + mh - 1) mh > maxI then maxI
            else goQuot (h + mh - 1) mh)).toNat).map
        (goChunk h mh (if rw > 0 ∧ ow > rw then rw else ow) pfx)) := by
  simp only [processImageWithGo_plan, goDivOpt, if_neg hmh]
  by_cases hc : rw > 0 ∧ ow > rw
  · simp [hc]
  · simp [hc]

lemma goQuot_ceil_pos (h mh : Int) (hh : 0 < h) (hm : 0 < mh) :
    goQuot (h + mh - 1) mh = (((h.toNat + mh.toNat - 1) / mh.toNat : Nat) : Int) := by
  unfold goQuot
  rw [if_pos (propext (iff_of_false (by omega) (by omega)))]
  have e1 : (h + mh - 1).natAbs = h.toNat + mh.toNat - 1 := by omega
  have e2 : mh.natAbs = mh.toNat := by omega
  rw [e1, e2]

lemma processImageWithGo_plan_pos (ow h mh rw : Int) (pfx : String) (hh : 0 < h) (hm : 0 < mh) :
    processImageWithGo_plan ow h mh rw 0 pfx =
      some ((List.range ((h.toNat + mh.toNat - 1) / mh.toNat)).map
        (goChunk h mh (if rw > 0 ∧ ow > rw then rw else ow) pfx)) := by
  rw [processImageWithGo_plan_eval ow h mh rw 0 pfx hm.ne']
  rw [if_neg (show ¬((0 : Int) > 0 ∧ goQuot (h + mh - 1) mh > 0) by simp)]
  rw [goQuot_ceil_pos h mh hh hm]
  rw [Int.toNat_natCast]

lemma goChunk_startY (h mh W : Int) (pfx : String) (i : Nat) :
    (goChunk h mh W pfx i).startY = (i : Int) * mh := rfl

lemma goChunk_endY (h mh W : Int) (pfx : String) (i : Nat) :
    (goChunk h mh W pfx i).endY =
      if (i : Int) * mh + mh > h then h else (i : Int) * mh + mh := rfl

lemma goChunk_xOff (h mh W : Int) (pfx : String) (i : Nat) :
    (goChunk h mh W pfx i).xOff = 0 := rfl

lemma goChunk_outWidth (h mh W : Int) (pfx : String) (i : Nat) :
    (goChunk h mh W pfx i).outWidth = W := rfl

lemma goChunk_fileName (h mh W : Int) (pfx : String) (i : Nat) :
    (goChunk h mh W pfx i).fileName = chunkFileName pfx ((i : Int) + 1) := rfl

lemma processImageWithGo_plan_zero (ow h rw maxI : Int) (pfx : String) :
    processImageWithGo_plan ow h 0 rw maxI pfx = none := by
  unfold processImageWithGo_plan goDivOpt
  simp

lemma toString_intOfNat (n : Nat) : toString ((n : Int)) = toString n := rfl

lemma chunkFileName_nat (pfx : String) (i : Nat) :
    chunkFileName pfx ((i : Int) + 1) =
      pfx ++ "_" ++ (if i + 1 < 10 then "0" ++ toString (i + 1) else toString (i + 1)) ++ ".jpg" := by
  unfold chunkFileName fileNumberStrOf
  have hcast : ((i : Int) + 1) = ((i + 1 : Nat) : Int) := by push_cast; ring
  rw [hcast]
  by_cases hc : i + 1 < 10
  · rw [if_pos (by exact_mod_cast hc), if_pos hc, toString_intOfNat]
  · rw [if_neg (by exact_mod_cast hc), if_neg hc, toString_intOfNat]

/-- C1: with no chunk-count limit, for positive height and positive
`maxHeight` the planner produces exactly `(height + maxHeight - 1) / maxHeight`
chunks; the 0-based chunk `i` covers `[i*maxHeight, min((i+1)*maxHeight, height))`,
every chunk is at most `maxHeight` tall, consecutive chunks are contiguous,
distinct chunks do not overlap, and the union of the Y-ranges is exactly
`[0, height)`. -/
theorem C1_planner_partition (ow rw h mh : Int) (pfx : String)
    (hh : 0 < h) (hm : 0 < mh) :
    ∃ l, processImageWithGo_plan ow h mh rw 0 pfx = some l ∧
      l.length = (h.toNat + mh.toNat - 1) / mh.toNat ∧
      (∀ i : Nat, ∀ hi : i < l.length,
        (l.get ⟨i, hi⟩).startY = (i : Int) * mh ∧
        (l.get ⟨i, hi⟩).endY = min (((i : Int) + 1) * mh) h) ∧
      (∀ i : Nat, ∀ hi : i < l.length,
        (l.get ⟨i, hi⟩).endY - (l.get ⟨i, hi⟩).startY ≤ mh) ∧
      (∀ i : Nat, ∀ hi : i + 1 < l.length, ∀ hi' : i < l.length,
        (l.get ⟨i + 1, hi⟩).startY = (l.get ⟨i, hi'⟩).endY) ∧
      (∀ i j : Nat, ∀ hi : i < l.length, ∀ hj : j < l.length, i < j →
        (l.get ⟨i, hi⟩).endY ≤ (l.get ⟨j, hj⟩).startY) ∧
      (∀ y : Int, (0 ≤ y ∧ y < h) ↔ ∃ c ∈ l, c.startY ≤ y ∧ y < c.endY) := by
  have hcH : ((h.toNat : Nat) : Int) = h := Int.toNat_of_nonneg hh.le
  have hcM : ((mh.toNat : Nat) : Int) = mh := Int.toNat_of_nonneg hm.le
  have hM : 0 < mh.toNat := by omega
  have hH : 0 < h.toNat := by omega
  set H := h.toNat
  set M := mh.toNat
  set N := (H + M - 1) / M with hN
  set W := (if rw > 0 ∧ ow > rw then rw else ow) with hW
  refine ⟨(List.range N).map (goChunk h mh W pfx),
    processImageWithGo_plan_pos ow h mh rw pfx hh hm, by simp, ?_, ?_, ?_, ?_, ?_⟩
  · -- geometry of each chunk
    intro i hi
    simp only [List.length_map, List.length_range] at hi
    simp only [List.get_eq_getElem, List.getElem_map, List.getElem_range,
      goChunk_startY, goChunk_endY]
    refine ⟨trivial, ?_⟩
    have hr : ((i : Int) + 1) * mh = (i : Int) * mh + mh := by ring
    rw [hr, min_def]
    generalize (i : Int) * mh = A
    split <;> split <;> omega
  · -- bounded height
    intro i hi
    simp only [List.length_map, List.length_range] at hi
    simp only [List.get_eq_getElem, List.getElem_map, List.getElem_range,
      goChunk_startY, goChunk_endY]
    generalize (i : Int) * mh = A
    split <;> omega
  · -- contiguity
    intro i hi hi'
    simp only [List.length_map, List.length_range] at hi hi'
    simp only [List.get_eq_getElem, List.getElem_map, List.getElem_range,
      goChunk_startY, goChunk_endY]
    have hlt : (i + 1) * M < H := nat_lt_ceil_mul H M i hM hi
    have hlt' : (((i + 1) * M : Nat) : Int) < ((H : Nat) : Int) := by exact_mod_cast hlt
    push_cast at hlt'
    rw [hcH, hcM] at hlt'
    have hle : (i : Int) * mh + mh ≤ h := by nlinarith [hlt']
    rw [if_neg (by omega)]
    push_cast
    ring
  · -- non-overlap
    intro i j hi hj hij
    simp only [List.length_map, List.length_range] at hi hj
    simp only [List.get_eq_getElem, List.getElem_map, List.getElem_range,
      goChunk_startY, goChunk_endY]
    have h1 : (i : Int) + 1 ≤ (j : Int) := by exact_mod_cast hij
    have h2 : ((i : Int) + 1) * mh ≤ (j : Int) * mh :=
      mul_le_mul_of_nonneg_right h1 hm.le
    have h3 : (i : Int) * mh + mh ≤ (j : Int) * mh := by nlinarith [h2]
    split <;> omega
  · -- exact coverage of [0, h)
    intro y
    constructor
    · rintro ⟨hy0, hyh⟩
      have hyN : ((y.toNat : Nat) : Int) = y := Int.toNat_of_nonneg hy0
      have hyH : y.toNat < H := by omega
      set i := y.toNat / M with hidef
      have hiN : i < N := nat_div_lt_ceil H M y.toNat hM hyH
      have hb := nat_div_bounds y.toNat M hM
      have hb1 : ((i * M : Nat) : Int) ≤ y := by
        rw [← hyN]; exact_mod_cast hb.1
      have hb2 : y < (((i + 1) * M : Nat) : Int) := by
        rw [← hyN]; exact_mod_cast hb.2
      push_cast at hb1 hb2
      rw [hcM] at hb1 hb2
      refine ⟨goChunk h mh W pfx i, List.mem_map_of_mem _ (List.mem_range.mpr hiN), ?_, ?_⟩
      · rw [goChunk_startY]
        nlinarith [hb1]
      · rw [goChunk_endY]
        have hy1 : y < (i : Int) * mh + mh := by nlinarith [hb2]
        split <;> omega
    · rintro ⟨c, hc, hcy1, hcy2⟩
      rcases List.mem_map.mp hc with ⟨i, hil, rfl⟩
      have hiN : i < N := List.mem_range.mp hil
      rw [goChunk_startY] at hcy1
      rw [goChunk_endY] at hcy2
      have hge : (0 : Int) ≤ (i : Int) * mh := by positivity
      constructor
      · omega
      · revert hcy2
        split <;> omega
theorem C1_planner_partition_witness :
    (0 : Int) < 12000 ∧ (0 : Int) < 5000 ∧
      ∃ l, processImageWithGo_plan 800 12000 5000 0 0 "page" = some l ∧ l.length = 3 := by
  obtain ⟨l, h1, h2, -, -, -, -, -⟩ :=
    C1_planner_partition 800 0 12000 5000 "page" (by decide) (by decide)
  refine ⟨by decide, by decide, l, h1, ?_⟩
  rw [h2]
  decide

/-- C2: when `0 < requestedMaxChunks < ceil(height/maxHeight)`, the planner
succeeds and produces exactly `requestedMaxChunks` chunks, which are precisely
the first `requestedMaxChunks` chunks (in top-to-bottom order) of the
unlimited plan; every retained chunk ends at or above `requestedMaxChunks *
maxHeight`, which is strictly above the bottom of the image, so the rows below
are dropped without an error. -/
theorem C2_truncation (ow rw h mh maxI : Int) (pfx : String)
    (hh : 0 < h) (hm : 0 < mh) (hpos : 0 < maxI)
    (hlt : maxI < (((h.toNat + mh.toNat - 1) / mh.toNat : Nat) : Int)) :
    ∃ l lFull,
      processImageWithGo_plan ow h mh rw maxI pfx = some l ∧
      processImageWithGo_plan ow h mh rw 0 pfx = some lFull ∧
      l.length = maxI.toNat ∧
      l = lFull.take maxI.toNat ∧
      (∀ c ∈ l, c.endY ≤ maxI * mh) ∧
      maxI * mh < h := by
  have hcH : ((h.toNat : Nat) : Int) = h := Int.toNat_of_nonneg hh.le
  have hcM : ((mh.toNat : Nat) : Int) = mh := Int.toNat_of_nonneg hm.le
  have hM : 0 < mh.toNat := by omega
  have hH : 0 < h.toNat := by omega
  set H := h.toNat
  set M := mh.toNat
  set N := (H + M - 1) / M with hN
  set W := (if rw > 0 ∧ ow > rw then rw else ow) with hW
  have hcI : ((maxI.toNat : Nat) : Int) = maxI := Int.toNat_of_nonneg hpos.le
  have hkey : maxI * mh < h := by
    have h2 : (maxI.toNat - 1) + 1 < N := by omega
    have h3 := nat_lt_ceil_mul H M (maxI.toNat - 1) hM h2
    have h4 : maxI.toNat * M < H := by
      have he : (maxI.toNat - 1) + 1 = maxI.toNat := by omega
      rwa [he] at h3
    have h5 : ((maxI.toNat * M : Nat) : Int) < ((H : Nat) : Int) := by exact_mod_cast h4
    push_cast at h5
    rw [hcH, hcM, hcI] at h5
    exact h5
  have hplan : processImageWithGo_plan ow h mh rw maxI pfx =
      some ((List.range maxI.toNat).map (goChunk h mh W pfx)) := by
    rw [processImageWithGo_plan_eval ow h mh rw maxI pfx hm.ne']
    rw [goQuot_ceil_pos h mh hh hm]
    have hsc : (if maxI > 0 ∧ (((h.toNat + mh.toNat - 1) / mh.toNat : Nat) : Int) > maxI
        then maxI else (((h.toNat + mh.toNat - 1) / mh.toNat : Nat) : Int)) = maxI :=
      if_pos ⟨hpos, hlt⟩
    rw [hsc, hW]
  have hfull := processImageWithGo_plan_pos ow h mh rw pfx hh hm
  refine ⟨_, _, hplan, hfull, ?_, ?_, ?_, hkey⟩
  · simp
  · have hmin : min maxI.toNat N = maxI.toNat := by omega
    rw [← List.map_take, List.take_range, hmin]
  · intro c hc
    rcases List.mem_map.mp hc with ⟨i, hil, rfl⟩
    have hi : i < maxI.toNat := List.mem_range.mp hil
    rw [goChunk_endY]
    have hle1 : ((i : Int) + 1) ≤ maxI := by omega
    have hle2 : ((i : Int) + 1) * mh ≤ maxI * mh := mul_le_mul_of_nonneg_right hle1 hm.le
    have hle3 : (i : Int) * mh + mh ≤ maxI * mh := by nlinarith [hle2]
    rw [if_neg (by push_neg; linarith [hle3, hkey])]
    exact hle3

theorem C2_truncation_witness :
    (0 : Int) < 12000 ∧ (0 : Int) < 5000 ∧ (0 : Int) < 2 ∧
      ∃ l lFull, processImageWithGo_plan 800 12000 5000 0 2 "page" = some l ∧
        processImageWithGo_plan 800 12000 5000 0 0 "page" = some lFull ∧
        l.length = 2 ∧ l = lFull.take 2 := by
  obtain ⟨l, lFull, h1, h2, h3, h4, -, -⟩ :=
    C2_truncation 800 0 12000 5000 2 "page" (by decide) (by decide) (by decide) (by decide)
  exact ⟨by decide, by decide, by decide, l, lFull, h1, h2, h3, h4⟩

/-- C3: every chunk of a successful plan is cut at X-offset 0 (the left edge,
never a centered offset — likewise the in-process renderer reads source column
`x` for output column `x`), with output width `requestedWidth` when
`0 < requestedWidth < width`, and the full source width otherwise. -/
theorem C3_width_crop (ow h mh rw maxI : Int) (pfx : String) (l : List ChunkSpec)
    (hp : processImageWithGo_plan ow h mh rw maxI pfx = some l) :
    (∀ c ∈ l, c.xOff = 0 ∧
      ((rw > 0 ∧ rw < ow) → c.outWidth = rw) ∧
      (¬(rw > 0 ∧ rw < ow) → c.outWidth = ow)) ∧
    (∀ cw x, goSrcX cw x = x) := by
  constructor
  · by_cases hmh : mh = 0
    · rw [hmh, processImageWithGo_plan_zero] at hp
      exact absurd hp (by simp)
    · rw [processImageWithGo_plan_eval ow h mh rw maxI pfx hmh] at hp
      have hl := Option.some.inj hp
      subst hl
      intro c hc
      rcases List.mem_map.mp hc with ⟨i, -, rfl⟩
      refine ⟨goChunk_xOff _ _ _ _ _, ?_, ?_⟩
      · intro hcond
        rw [goChunk_outWidth, if_pos ⟨hcond.1, hcond.2⟩]
      · intro hcond
        rw [goChunk_outWidth, if_neg hcond]
  · intro cw x
    cases cw <;> simp [goSrcX]

theorem C3_width_crop_witness :
    processImageWithGo_plan 2000 100 50 1500 0 "p" =
      some [⟨0, 50, 0, 1500, "p_01.jpg"⟩, ⟨50, 100, 0, 1500, "p_02.jpg"⟩] ∧
    ((1500 : Int) > 0 ∧ (1500 : Int) < 2000) ∧
    ∀ c ∈ [(⟨0, 50, 0, 1500, "p_01.jpg"⟩ : ChunkSpec), ⟨50, 100, 0, 1500, "p_02.jpg"⟩],
      c.outWidth = 1500 ∧ c.xOff = 0 := by
  have hth := C3_width_crop 2000 100 50 1500 0 "p"
    [⟨0, 50, 0, 1500, "p_01.jpg"⟩, ⟨50, 100, 0, 1500, "p_02.jpg"⟩] (by decide)
  refine ⟨by decide, by decide, ?_⟩
  intro c hc
  exact ⟨(hth.1 c hc).2.1 (by decide), (hth.1 c hc).1⟩

/-- C8: in every successful plan, the chunk at 0-based position `i` (1-based
index `i+1`) is named `prefix ++ "_" ++ s ++ ".jpg"`, where `s` is `"0"`
followed by the decimal of `i+1` when `i+1 < 10` and the plain unpadded
decimal of `i+1` otherwise. -/
theorem C8_chunk_naming (ow h mh rw maxI : Int) (pfx : String) (l : List ChunkSpec)
    (hp : processImageWithGo_plan ow h mh rw maxI pfx = some l) :
    ∀ i : Nat, ∀ hi : i < l.length,
      (l.get ⟨i, hi⟩).fileName =
        pfx ++ "_" ++ (if i + 1 < 10 then "0" ++ toString (i + 1) else toString (i + 1)) ++ ".jpg" := by
  by_cases hmh : mh = 0
  · rw [hmh, processImageWithGo_plan_zero] at hp
    exact absurd hp (by simp)
  · rw [processImageWithGo_plan_eval ow h mh rw maxI pfx hmh] at hp
    have hl := Option.some.inj hp
    subst hl
    intro i hi
    simp only [List.length_map, List.length_range] at hi
    simp only [List.get_eq_getElem, List.getElem_map, List.getElem_range, goChunk_fileName]
    exact chunkFileName_nat pfx i

theorem C8_chunk_naming_witness :
    processImageWithGo_plan 50 1000 100 0 0 "p" = some c8ChunkList ∧
    (c8ChunkList.get ⟨0, by decide⟩).fileName = "p" ++ "_" ++ ("0" ++ toString 1) ++ ".jpg" ∧
    (c8ChunkList.get ⟨9, by decide⟩).fileName = "p" ++ "_" ++ toString 10 ++ ".jpg" := by
  have hth := C8_chunk_naming 50 1000 100 0 0 "p" c8ChunkList (by decide)
  refine ⟨by decide, ?_, ?_⟩
  · have h0 := hth 0 (by decide)
    rw [h0, if_pos (by decide)]
  · have h9 := hth 9 (by decide)
    rw [h9, if_neg (by decide)]

/-- C10: for the same probed dimensions and the same request parameters, the
in-process (`processImageWithGo`) and external-tool (`processImageWithCLI`)
strategies compute identical chunk plans: same count, same Y-ranges, same
X-offset and output width, same file names. -/
theorem C10_strategy_equivalence (ow h mh rw maxI : Int) (pfx : String) :
    processImageWithGo_plan ow h mh rw maxI pfx =
      processImageWithCLI_plan ow h mh rw maxI pfx := by
  unfold processImageWithGo_plan processImageWithCLI_plan
  by_cases hc : rw > 0 ∧ ow > rw
  · rw [decide_eq_true hc]
    rfl
  · rw [decide_eq_false hc]
    rfl

/-- C7 counterexample: chunk planning performs no `maxHeight > 0` validation
and there is no `PlanError`: with `maxHeight = -5` the plan is a successful
empty plan (split count `-18`, zero loop iterations), and with `maxHeight = 0`
the ceiling division divides by zero (a runtime panic, modelled `none`), not a
reported planning error. -/
theorem C7_counterexample :
    processImageWithGo_plan 100 100 (-5) 0 0 "p" = some [] ∧
    processImageWithGo_plan 100 100 0 0 0 "p" = none ∧
    ((-5 : Int) ≤ 0 ∧ (0 : Int) ≤ 0) := ⟨by decide, by decide, by decide, by decide⟩

/-- C7 amended: the planner evaluates the ceiling division unconditionally —
there is no check of `maxHeight` and no error value for it; for
`maxHeight = 0` every plan is the divide-by-zero panic (`none`), never a
reported `PlanError`. -/
theorem C7_no_maxheight_validation (ow h rw maxI : Int) (pfx : String) :
    processImageWithGo_plan ow h 0 rw maxI pfx = none :=
  processImageWithGo_plan_zero ow h rw maxI pfx

/-- C5 counterexample: the in-process fetch succeeds on an HTTP 404 — the
response status is never examined, the body is written to the destination
file and no error is returned, contradicting "fails whenever the response
status is not 2xx". -/
theorem C5_counterexample :
    downloadImage ⟨false, false, 404, "not found", false, false⟩ = Except.ok "not found" ∧
    ¬(200 ≤ 404 ∧ 404 < 300) := ⟨by decide, by decide⟩

/-- C5 amended: the in-process fetch fails exactly on request-creation,
transport, file-creation or copy errors — the HTTP status code is ignored
(the result is invariant under changing it), and on success the destination
file receives exactly the response body; the external-tool fetch fails
exactly on a non-zero `curl` exit, a missing output file, or an empty output
file.  Each strategy performs its single attempt with no retry. -/
theorem C5_fetch_failure_modes :
    (∀ env : HttpEnv, (∃ v, downloadImage env = Except.ok v) ↔
      (env.newRequestFails = false ∧ env.transportFails = false ∧
       env.createFileFails = false ∧ env.copyFails = false)) ∧
    (∀ env : HttpEnv, ∀ v, downloadImage env = Except.ok v → v = env.body) ∧
    (∀ env : HttpEnv, ∀ s : Nat, downloadImage { env with status := s } = downloadImage env) ∧
    (∀ env : CurlEnv, downloadImageWithCurl env = Except.ok () ↔
      (env.exitCode = 0 ∧ env.statFails = false ∧ env.fileSize ≠ 0)) := by
  refine ⟨?_, ?_, ?_, ?_⟩
  · rintro ⟨nrf, tf, st, bd, cf, cpf⟩
    cases nrf <;> cases tf <;> cases cf <;> cases cpf <;> simp [downloadImage]
  · rintro ⟨nrf, tf, st, bd, cf, cpf⟩ v hv
    cases nrf <;> cases tf <;> cases cf <;> cases cpf <;> simp [downloadImage] at hv <;> simp [hv]
  · rintro ⟨nrf, tf, st, bd, cf, cpf⟩ s
    rfl
  · rintro ⟨ec, co, sf, fs⟩
    cases sf
    all_goals by_cases hec : ec = 0 <;> by_cases hfs : fs = 0 <;>
      simp [downloadImageWithCurl, hec, hfs]

/-- C6 counterexample: an empty `images_prefix` is not rejected — it passes
the character check vacuously, validation returns no error, and the pipeline
is started, contradicting "missing or empty images_prefix ... is detected
before the pipeline starts and short-circuits it". -/
theorem C6_counterexample :
    (⟨"images/a.jpg", "", 0, 0, false⟩ : ImageRequest).imagesPfx = "" ∧
    handleSplitImage_validate ⟨"images/a.jpg", "", 0, 0, false⟩ = none ∧
    handleSplitImage_startsPipeline ⟨"images/a.jpg", "", 0, 0, false⟩ = true :=
  ⟨rfl, by decide, by decide⟩

/-- C6 amended: the handler detects exactly these input-field errors before
the pipeline starts — empty `url`, negative `max_images`, and any character
of `images_prefix` outside ASCII letters, digits and underscore — and each
short-circuits the pipeline (no processor call, hence no working directory
and no fetch); an empty `images_prefix` is not rejected. -/
theorem C6_validation (req : ImageRequest) :
    (handleSplitImage_validate req = none ↔
      (req.url ≠ "" ∧ 0 ≤ req.maxImages ∧
        containsOnlyAllowedChars req.imagesPfx allowedPfxChars = true)) ∧
    (handleSplitImage_startsPipeline req = true ↔ handleSplitImage_validate req = none) ∧
    (∀ e, handleSplitImage_validate req = some e →
      handleSplitImage_startsPipeline req = false) := by
  refine ⟨?_, ?_, ?_⟩
  · unfold handleSplitImage_validate
    split_ifs with h1 h2 h3 <;> simp_all
  · unfold handleSplitImage_startsPipeline
    cases hv : handleSplitImage_validate req <;> simp [Option.isNone]
  · intro e he
    unfold handleSplitImage_startsPipeline
    rw [he]
    rfl

/-- C9 counterexample: the vipsheader dimension parsing succeeds on the
output `"img.jpg: -5x-10 uchar"` and returns the negative pair `(-5, -10)` —
`strconv.Atoi` accepts a leading sign, so success does not imply the returned
values are non-negative. -/
theorem C9_counterexample :
    parseVipsheaderDims "img.jpg: -5x-10 uchar".toList = Except.ok (-5, -10) ∧
    ((-5 : Int) < 0 ∧ (-10 : Int) < 0) := ⟨by decide, by decide, by decide⟩

/-- C9 amended: the parser succeeds exactly when the expected token structure
is present — a colon-delimited field, whose first space-separated token splits
on `"x"` into exactly two parts, both accepted by the integer parser — and
the returned values are exactly those two parsed integers (which may be
negative, since the numeric parser accepts a leading sign); in every other
case it fails with the corresponding error. -/
theorem C9_prober_characterization (out : List Char) (w h : Int) :
    parseVipsheaderDims out = Except.ok (w, h) ↔
      (∃ p0 p1 ps, splitOnChar ':' (trimSpace out) = p0 :: p1 :: ps ∧
        ∃ t0 ts, splitOnChar ' ' (trimSpace p1) = t0 :: ts ∧
          ∃ d0 d1, splitOnChar 'x' t0 = [d0, d1] ∧
            atoiGo d0 = some w ∧ atoiGo d1 = some h) := by
  have hnum : ∀ d0 d1 : List Char, parseDimNumbers d0 d1 = Except.ok (w, h) ↔
      (atoiGo d0 = some w ∧ atoiGo d1 = some h) := by
    intro d0 d1
    unfold parseDimNumbers
    cases ha : atoiGo d0 with
    | none => simp
    | some w0 =>
      cases hb : atoiGo d1 with
      | none => simp
      | some h0 => simp
  have htok : ∀ tok0 : List Char, parseDimToken tok0 = Except.ok (w, h) ↔
      (∃ d0 d1, splitOnChar 'x' tok0 = [d0, d1] ∧
        atoiGo d0 = some w ∧ atoiGo d1 = some h) := by
    intro tok0
    unfold parseDimToken
    cases hd : splitOnChar 'x' tok0 with
    | nil => simp
    | cons a r =>
      cases r with
      | nil => simp
      | cons b r2 =>
        cases r2 with
        | nil =>
          simp [hnum]
          constructor
          · rintro ⟨h1, h2⟩
            exact ⟨a, b, ⟨rfl, rfl⟩, h1, h2⟩
          · rintro ⟨d0, d1, ⟨rfl, rfl⟩, h1, h2⟩
            exact ⟨h1, h2⟩
        | cons c r3 => simp
  have hpart : ∀ p1 : List Char, parseDimensionPart p1 = Except.ok (w, h) ↔
      (∃ t0 ts, splitOnChar ' ' (trimSpace p1) = t0 :: ts ∧
        ∃ d0 d1, splitOnChar 'x' t0 = [d0, d1] ∧
          atoiGo d0 = some w ∧ atoiGo d1 = some h) := by
    intro p1
    unfold parseDimensionPart
    cases ht : splitOnChar ' ' (trimSpace p1) with
    | nil => simp
    | cons t0 ts => simp [htok]
  unfold parseVipsheaderDims
  cases hs : splitOnChar ':' (trimSpace out) with
  | nil => simp
  | cons p0 rest =>
    cases rest with
    | nil => simp
    | cons p1 ps =>
      simp [hpart]
      constructor
      · intro hx
        exact ⟨p0, p1, ⟨rfl, rfl⟩, hx⟩
      · rintro ⟨q0, q1, ⟨rfl, rfl⟩, hx⟩
        exact hx

/-- C4: spec-modelled orchestrator result — an archive is present in the
result, and an archive file is written by the run, exactly when archiving was
requested; when it was not, the run writes only the chunk files and `zipUrl`
is the empty string, and when it was, `zipUrl` is the (non-empty) archive
path. -/
theorem C4_archive_iff_requested (ow h mh rw maxI : Int) (pfx : String) (cz : Bool)
    (r : RunResult) (hr : processImage_model ow h mh rw maxI pfx cz = some r) :
    (r.archive.isSome = true ↔ cz = true) ∧
    (cz = false → r.zipUrl = "" ∧ r.files = r.images) ∧
    (cz = true → r.archive = some (pfx ++ ".zip") ∧ r.zipUrl = pfx ++ ".zip" ∧
      r.files = r.images ++ [pfx ++ ".zip"] ∧ r.zipUrl ≠ "") := by
  unfold processImage_model at hr
  cases hp : processImageWithGo_plan ow h mh rw maxI pfx with
  | none => rw [hp] at hr; exact absurd hr (by simp)
  | some chunks =>
    rw [hp] at hr
    have hr' := Option.some.inj hr
    subst hr'
    have hnz : pfx ++ ".zip" ≠ "" := by
      intro hemp
      have hlen := congrArg String.length hemp
      rw [String.length_append] at hlen
      have h4 : (".zip" : String).length = 4 := by decide
      have h0 : ("" : String).length = 0 := by decide
      rw [h4, h0] at hlen
      omega
    cases cz <;> simp_all

theorem C4_archive_iff_requested_witness :
    processImage_model 50 100 100 0 0 "p" true =
      some ⟨"p.zip", ["p_01.jpg"], ["p_01.jpg", "p.zip"], some "p.zip"⟩ ∧
    processImage_model 50 100 100 0 0 "p" false =
      some ⟨"", ["p_01.jpg"], ["p_01.jpg"], none⟩ ∧
    (some "p.zip" : Option String).isSome = true ∧
    ("" : String) = "" := by
  have h1 := C4_archive_iff_requested 50 100 100 0 0 "p" true
    ⟨"p.zip", ["p_01.jpg"], ["p_01.jpg", "p.zip"], some "p.zip"⟩ (by decide)
  have h2 := C4_archive_iff_requested 50 100 100 0 0 "p" false
    ⟨"", ["p_01.jpg"], ["p_01.jpg"], none⟩ (by decide)
  exact ⟨by decide, by decide, h1.1.mpr rfl, (h2.2.1 rfl).1⟩

theorem C5_fetch_failure_modes_witness :
    downloadImage ⟨false, false, 200, "imgbytes", false, false⟩ = Except.ok "imgbytes" ∧
    ("imgbytes" : String) =
      (⟨false, false, 200, "imgbytes", false, false⟩ : HttpEnv).body ∧
    downloadImageWithCurl ⟨0, "", false, 17⟩ = Except.ok () :=
  ⟨by decide,
   C5_fetch_failure_modes.2.1 ⟨false, false, 200, "imgbytes", false, false⟩ "imgbytes" (by decide),
   (C5_fetch_failure_modes.2.2.2 ⟨0, "", false, 17⟩).mpr ⟨rfl, rfl, by decide⟩⟩

theorem C6_validation_witness :
    handleSplitImage_validate ⟨"", "p", 0, 0, false⟩ = some "URL is required" ∧
    handleSplitImage_startsPipeline ⟨"", "p", 0, 0, false⟩ = false :=
  ⟨by decide,
   (C6_validation ⟨"", "p", 0, 0, false⟩).2.2 "URL is required" (by decide)⟩

theorem C9_prober_characterization_witness :
    parseVipsheaderDims "a: 2x3 u".toList = Except.ok (2, 3) :=
  (C9_prober_characterization "a: 2x3 u".toList 2 3).mpr
    ⟨"a".toList, " 2x3 u".toList, [], by decide,
     "2x3".toList, ["u".toList], by decide,
     "2".toList, "3".toList, by decide, by decide, by decide⟩
